import Mathlib

open Matrix

/-!
Verification of the CholLinearOperator component
(src/linear_operator/operators/chol_linear_operator.py).

The operator wraps a triangular factor R together with an orientation flag
`upper` and represents the symmetric matrix A = R * Rᵀ (lower orientation)
or A = Rᵀ * R (upper orientation).  Matrices are embedded as Mathlib
matrices over a field; the collaborating triangular-factor primitives
(transpose, inverse, triangular solve, Cholesky solve, diagonal), which live
outside the translated file, are modelled from the spec.  Python method
names starting with an underscore keep their name with the underscore
dropped, since Lean identifiers cannot start with one.
-/

/-- Triangular factor. Modelled from the spec: the external
TriangularLinearOperator component is a square matrix tagged upper or lower
(the tag steers its solve kernels; the stored entries are `mat`). -/
structure TriangularLinearOperator (n : ℕ) (α : Type) where
  mat : Matrix (Fin n) (Fin n) α
  upper : Bool
  deriving DecidableEq

/-- Root-factor operator. Modelled from the spec: the external
RootLinearOperator base represents A = root * rootᵀ. -/
structure RootLinearOperator (n : ℕ) (α : Type) where
  root : Matrix (Fin n) (Fin n) α

/-- The Cholesky operator of the source: a root-factor operator whose root is
a triangular factor, plus the operator's own orientation flag `upper`. -/
structure CholLinearOperator (n : ℕ) (α : Type) where
  root : TriangularLinearOperator n α
  upper : Bool
  deriving DecidableEq

section Ring

variable {n m : ℕ} {α : Type} [CommRing α]

/-- Modelled from the spec: the factor's dense materialization is its stored
matrix. -/
def TriangularLinearOperator.to_dense (T : TriangularLinearOperator n α) :
    Matrix (Fin n) (Fin n) α :=
  T.mat

/-- Modelled from the spec: the factor's transpose primitive
(`_transpose_nonbatch`) transposes the entries and flips the orientation
tag. -/
def TriangularLinearOperator.transpose_nonbatch (T : TriangularLinearOperator n α) :
    TriangularLinearOperator n α :=
  ⟨T.matᵀ, !T.upper⟩

/-- Modelled from the spec: the factor's diagonal-extraction primitive
(`_diagonal`). -/
def TriangularLinearOperator.diagonal (T : TriangularLinearOperator n α) :
    Fin n → α :=
  fun i => T.mat i i

/-- Embeds CholLinearOperator._chol_diag: `self.root._diagonal()`. -/
def CholLinearOperator.chol_diag (c : CholLinearOperator n α) : Fin n → α :=
  c.root.diagonal

/-- Embeds CholLinearOperator._diagonal:
`(self.root.to_dense() ** 2).sum(-1)`, the row-wise sum of squares of the
factor's entries. -/
def CholLinearOperator.diagonal (c : CholLinearOperator n α) : Fin n → α :=
  fun i => ∑ j, (c.root.to_dense i j) ^ 2

/-- Embeds CholLinearOperator.to_dense:
`root._transpose_nonbatch() @ root` when upper else
`root @ root._transpose_nonbatch()`, densified. -/
def CholLinearOperator.to_dense (c : CholLinearOperator n α) :
    Matrix (Fin n) (Fin n) α :=
  if c.upper then c.root.transpose_nonbatch.mat * c.root.mat
  else c.root.mat * c.root.transpose_nonbatch.mat

end Ring

/-- Result of `inv_quad`: the Python function returns either the unreduced
per-column tensor (one entry per column of the right-hand side) or, after the
final reduction, a single scalar. -/
inductive InvQuadResult (m : ℕ) (α : Type) where
  | vec : (Fin m → α) → InvQuadResult m α
  | scalar : α → InvQuadResult m α

/-- Discriminator for `InvQuadResult`. -/
def InvQuadResult.isScalar {m : ℕ} {α : Type} : InvQuadResult m α → Bool
  | .vec _ => false
  | .scalar _ => true

section Field

variable {n m k : ℕ} {α : Type} [Field α]

/-- Computable matrix inverse over a field by the adjugate formula; equal to
Mathlib's nonsingular inverse (see `minv_eq_inv`). -/
def minv (A : Matrix (Fin n) (Fin n) α) : Matrix (Fin n) (Fin n) α :=
  A.det⁻¹ • A.adjugate

theorem minv_eq_inv (A : Matrix (Fin n) (Fin n) α) : minv A = A⁻¹ := by
  rw [Matrix.inv_def, minv, Ring.inverse_eq_inv]

/-- Modelled from the spec: the factor's inverse primitive returns the factor
whose entries are the matrix inverse; inverting a triangular matrix keeps its
orientation. -/
def TriangularLinearOperator.inverse (T : TriangularLinearOperator n α) :
    TriangularLinearOperator n α :=
  ⟨minv T.mat, T.upper⟩

/-- Modelled from the spec: the factor's triangular-solve primitive returns
the solution Y of `T.mat * Y = rhs`. -/
def TriangularLinearOperator.solve (T : TriangularLinearOperator n α)
    (rhs : Matrix (Fin n) (Fin m) α) : Matrix (Fin n) (Fin m) α :=
  minv T.mat * rhs

/-- Modelled from the spec: the factor's `_cholesky_solve` primitive solves
the system whose matrix is the factored product in the requested orientation,
i.e. it returns X with `(mat * matᵀ) * X = rhs` (lower) or
`(matᵀ * mat) * X = rhs` (upper), by a forward and a back substitution. -/
def TriangularLinearOperator.cholesky_solve (T : TriangularLinearOperator n α)
    (rhs : Matrix (Fin n) (Fin m) α) (upper : Bool) : Matrix (Fin n) (Fin m) α :=
  if upper then minv (T.matᵀ * T.mat) * rhs else minv (T.mat * T.matᵀ) * rhs

/-- Modelled from the spec: dense form of a root-factor operator,
`root * rootᵀ`. -/
def RootLinearOperator.to_dense (S : RootLinearOperator n α) :
    Matrix (Fin n) (Fin n) α :=
  S.root * S.rootᵀ

/-- Embeds CholLinearOperator.inverse: `Linv = self.root.inverse()` then
`CholLinearOperator(TriangularLinearOperator(Linv, upper=not self.upper),
upper=not self.upper)`. -/
def CholLinearOperator.inverse (c : CholLinearOperator n α) :
    CholLinearOperator n α :=
  ⟨⟨c.root.inverse.mat, !c.upper⟩, !c.upper⟩

/-- Embeds CholLinearOperator.inv_quad: solve the factor system
(`root._transpose_nonbatch().solve(tensor)` when upper, else
`root.solve(tensor)`), square the solution, sum over the solved dimension,
and sum once more over the trailing dimension when the result is nonempty
and `reduce_inv_quad` is set. -/
def CholLinearOperator.inv_quad (c : CholLinearOperator n α)
    (tensor : Matrix (Fin n) (Fin m) α) (reduce_inv_quad : Bool) :
    InvQuadResult m α :=
  let R := if c.upper then c.root.transpose_nonbatch.solve tensor
           else c.root.solve tensor
  let inv_quad_term : Fin m → α := fun j => ∑ i, (R i j) ^ 2
  if m ≠ 0 ∧ reduce_inv_quad then .scalar (∑ j, inv_quad_term j)
  else .vec inv_quad_term

/-- Embeds CholLinearOperator.root_inv_decomposition:
`RootLinearOperator(self.root.inverse()._transpose_nonbatch())`; the three
arguments are accepted and ignored. -/
def CholLinearOperator.root_inv_decomposition (c : CholLinearOperator n α)
    (method : Option String) (initial_vectors : Option (Matrix (Fin n) (Fin n) α))
    (test_vectors : Option (Matrix (Fin n) (Fin n) α)) : RootLinearOperator n α :=
  ⟨c.root.inverse.transpose_nonbatch.mat⟩

/-- Embeds CholLinearOperator.solve for a 2-D right-hand side:
`res = self.root._cholesky_solve(right_tensor, upper=self.upper)`, then
`left_tensor @ res` when a left tensor is given. -/
def CholLinearOperator.solve (c : CholLinearOperator n α)
    (right_tensor : Matrix (Fin n) (Fin m) α)
    (left_tensor : Option (Matrix (Fin k) (Fin n) α)) :
    Matrix (Fin n) (Fin m) α ⊕ Matrix (Fin k) (Fin m) α :=
  let res := c.root.cholesky_solve right_tensor c.upper
  match left_tensor with
  | none => Sum.inl res
  | some L => Sum.inr (L * res)

/-- Embeds CholLinearOperator.solve for a 1-D right-hand side: the vector is
unsqueezed to a single column, solved, squeezed back to 1-D, and
left-multiplied by the left tensor when one is given. -/
def CholLinearOperator.solve_vec (c : CholLinearOperator n α)
    (right_tensor : Fin n → α)
    (left_tensor : Option (Matrix (Fin k) (Fin n) α)) :
    (Fin n → α) ⊕ (Fin k → α) :=
  let unsq : Matrix (Fin n) (Fin 1) α := Matrix.of fun i _ => right_tensor i
  let res := c.root.cholesky_solve unsq c.upper
  let sq : Fin n → α := fun i => res i 0
  match left_tensor with
  | none => Sum.inl sq
  | some L => Sum.inr (L *ᵥ sq)

end Field

section Construction

variable {n : ℕ} {α : Type}

/-- Embeds the check `torch.all(torch.tril(chol) == chol)`: the part of the
matrix strictly above the diagonal is zero. -/
def is_tril [Zero α] (M : Matrix (Fin n) (Fin n) α) : Prop :=
  ∀ i j : Fin n, i < j → M i j = 0

/-- Embeds the check `torch.all(torch.triu(chol) == chol)`: the part of the
matrix strictly below the diagonal is zero. -/
def is_triu [Zero α] (M : Matrix (Fin n) (Fin n) α) : Prop :=
  ∀ i j : Fin n, j < i → M i j = 0

instance [Zero α] [DecidableEq α] (M : Matrix (Fin n) (Fin n) α) :
    Decidable (is_tril M) := by
  unfold is_tril; infer_instance

instance [Zero α] [DecidableEq α] (M : Matrix (Fin n) (Fin n) α) :
    Decidable (is_triu M) := by
  unfold is_triu; infer_instance

instance {ε σ : Type} [DecidableEq ε] [DecidableEq σ] : DecidableEq (Except ε σ) := fun a b =>
  match a, b with
  | .ok x, .ok y => if h : x = y then isTrue (by simp [h]) else isFalse (by simp [h])
  | .error x, .error y => if h : x = y then isTrue (by simp [h]) else isFalse (by simp [h])
  | .ok _, .error _ => isFalse (by simp)
  | .error _, .ok _ => isFalse (by simp)

/-- Argument of the constructor: either a typed triangular factor or a bare
dense array (the deprecated legacy path). -/
inductive CholInput (n : ℕ) (α : Type) where
  | typed : TriangularLinearOperator n α → CholInput n α
  | bare : Matrix (Fin n) (Fin n) α → CholInput n α

/-- Embeds CholLinearOperator.__init__.  The returned Bool records whether
the DeprecationWarning was issued; a bare array that is neither lower- nor
upper-triangular yields the ValueError message. -/
def CholLinearOperator.init [Zero α] [DecidableEq α] (chol : CholInput n α)
    (upper : Bool) : Except String (CholLinearOperator n α × Bool) :=
  match chol with
  | .typed T => .ok (⟨T, upper⟩, false)
  | .bare M =>
      if is_tril M then .ok (⟨⟨M, false⟩, upper⟩, true)
      else if is_triu M then .ok (⟨⟨M, true⟩, upper⟩, true)
      else .error "chol must be either lower or upper triangular"

end Construction

section Shapes

/-- Modelled from the spec: the base class's `is_square` test compares the
last two entries of the operator's shape. -/
def is_square_shape (s : List ℕ) : Bool :=
  s.dropLast.getLastD 0 == s.getLastD 0

/-- Errors raised by inv_quad_logdet, with the data interpolated into the
corresponding message: the structural error names the class and the
operator's size, the other two carry both shapes. -/
inductive IQLError where
  | notSquare (cls : String) (opShape : List ℕ)
  | dimMismatch (opShape rhsShape : List ℕ)
  | shapeMismatch (opShape rhsShape : List ℕ)
  deriving DecidableEq

/-- Embeds the precondition checks of CholLinearOperator.inv_quad_logdet
(shape level): not-square errors first; with a right-hand side, a 1-D rhs
against a 2-D operator is checked via its element count, otherwise the
dimension counts must agree and the operator's last dimension must equal the
rhs's second-to-last dimension. -/
def inv_quad_logdet_check (opShape : List ℕ) (rhsShape : Option (List ℕ)) :
    Except IQLError Unit :=
  if is_square_shape opShape = false then
    .error (.notSquare "CholLinearOperator" opShape)
  else
    match rhsShape with
    | none => .ok ()
    | some r =>
        if opShape.length = 2 ∧ r.length = 1 then
          if opShape.getLastD 0 ≠ r.prod then .error (.shapeMismatch opShape r)
          else .ok ()
        else if opShape.length ≠ r.length then .error (.dimMismatch opShape r)
        else if opShape.getLastD 0 ≠ r.dropLast.getLastD 0 then
          .error (.shapeMismatch opShape r)
        else .ok ()

/-- Follows the claim's words (spec side, for comparison with the code):
a right-hand side is compatible when its dimension count matches and the
operator's last dimension matches the rhs's second-to-last dimension, except
that a 1-D rhs is accepted against an unbatched 2-D operator when its length
equals the operator's last dimension. -/
def specCompatible (opShape : List ℕ) : Option (List ℕ) → Prop
  | none => True
  | some r =>
      (r.length = opShape.length ∧ opShape.getLastD 0 = r.dropLast.getLastD 0) ∨
      (opShape.length = 2 ∧ r.length = 1 ∧ r.prod = opShape.getLastD 0)

end Shapes

section RealOps

variable {n m : ℕ}

/-- Embeds the logdet branch of CholLinearOperator.inv_quad_logdet:
`self._chol_diag.pow(2).log().sum(-1)`. -/
noncomputable def CholLinearOperator.logdet_term (c : CholLinearOperator n ℝ) : ℝ :=
  ∑ i, Real.log ((c.chol_diag i) ^ 2)

/-- Embeds the result construction of CholLinearOperator.inv_quad_logdet on
a square operator with a compatible right-hand side: the quadratic term is
present exactly when a right-hand side was supplied, the logdet term exactly
when `logdet` was requested. -/
noncomputable def CholLinearOperator.inv_quad_logdet (c : CholLinearOperator n ℝ)
    (inv_quad_rhs : Option (Matrix (Fin n) (Fin m) ℝ)) (logdet : Bool)
    (reduce_inv_quad : Bool) : Option (InvQuadResult m ℝ) × Option ℝ :=
  (inv_quad_rhs.map fun T => c.inv_quad T reduce_inv_quad,
   if logdet then some c.logdet_term else none)

end RealOps

/-- Upper-oriented test operator over the integers: factor [[1,1],[0,1]]
tagged upper, operator flag upper. -/
def cZup : CholLinearOperator 2 ℤ := ⟨⟨!![1, 1; 0, 1], true⟩, true⟩

/-- Upper-oriented test operator over the rationals. -/
def cQup : CholLinearOperator 2 ℚ := ⟨⟨!![1, 1; 0, 1], true⟩, true⟩

/-- Lower-oriented test operator over the rationals: the spec's scenario
factor [[2,0],[1,3]], representing A = [[4,2],[2,10]]. -/
def cQ : CholLinearOperator 2 ℚ := ⟨⟨!![2, 0; 1, 3], false⟩, false⟩

/-- The spec's scenario operator over the reals. -/
noncomputable def cR : CholLinearOperator 2 ℝ := ⟨⟨!![2, 0; 1, 3], false⟩, false⟩

/-- Claim C1 (evaluation at the failing input): for the upper-oriented
operator with factor [[1,1],[0,1]], `_diagonal` returns the row-wise sums of
squares [2,1], while the diagonal of `to_dense` = factorᵀ * factor is [1,2];
the two disagree, so `diagonal()` is not the diagonal of `to_dense()` in the
upper orientation. -/
theorem chol_diagonal_mismatch_upper :
    cZup.diagonal = ![2, 1] ∧
    (fun i => cZup.to_dense i i) = ![1, 2] ∧
    cZup.diagonal ≠ fun i => cZup.to_dense i i :=
  ⟨by decide, by decide, by decide⟩

/-- Claim C9: with an empty right-hand side (zero columns) the final
reduction is skipped even when `reduce_inv_quad` is set: the result is the
unreduced empty per-column vector, never a scalar. -/
theorem chol_inv_quad_empty_skips_reduce {n : ℕ} {α : Type} [Field α]
    (c : CholLinearOperator n α) (T : Matrix (Fin n) (Fin 0) α) :
    c.inv_quad T true = c.inv_quad T false ∧
    (c.inv_quad T true).isScalar = false := by
  constructor <;> simp [CholLinearOperator.inv_quad, InvQuadResult.isScalar]

/-- Claim C10: a bare array that is both lower- and upper-triangular (for
instance a diagonal matrix) is wrapped as a lower-oriented triangular factor,
whatever `upper` flag is passed, because the lower-triangular test runs
first. -/
theorem chol_init_diag_wrapped_lower {n : ℕ} {α : Type} [Zero α] [DecidableEq α]
    (M : Matrix (Fin n) (Fin n) α) (u : Bool)
    (h1 : is_tril M) (h2 : is_triu M) :
    CholLinearOperator.init (.bare M) u = .ok (⟨⟨M, false⟩, u⟩, true) := by
  simp [CholLinearOperator.init, h1]

/-- Witness for C10: the diagonal matrix diag(1,2) passed with upper=true is
still wrapped as a lower factor. -/
theorem chol_init_diag_wrapped_lower_witness :
    is_tril !![(1:ℤ), 0; 0, 2] ∧ is_triu !![(1:ℤ), 0; 0, 2] ∧
    CholLinearOperator.init (.bare !![(1:ℤ), 0; 0, 2]) true =
      .ok (⟨⟨!![(1:ℤ), 0; 0, 2], false⟩, true⟩, true) :=
  ⟨by decide, by decide,
    chol_init_diag_wrapped_lower !![(1:ℤ), 0; 0, 2] true (by decide) (by decide)⟩

/-- Claim C8 counterexample: the zero matrix has an all-zero diagonal, yet
the deprecated bare-array path accepts it, wrapping it as a lower factor with
the advisory flag set: no nonzero-diagonal validation occurs. -/
theorem chol_init_zero_diag_accepted :
    CholLinearOperator.init (.bare !![(0:ℤ), 0; 0, 0]) false =
      .ok (⟨⟨!![(0:ℤ), 0; 0, 0], false⟩, false⟩, true) ∧
    !![(0:ℤ), 0; 0, 0] 0 0 = 0 :=
  ⟨by decide, by decide⟩

/-- Claim C8 (amended): the bare-array path validates only that the array is
lower- or upper-triangular, without inspecting the diagonal: a
lower-triangular array is wrapped as a lower factor after the deprecation
advisory, an upper-but-not-lower-triangular array as an upper factor,
anything else fails with the ValueError message; the typed path stores the
factor unchanged with no advisory. -/
theorem chol_init_triangular_classification {n : ℕ} {α : Type} [Zero α] [DecidableEq α]
    (M : Matrix (Fin n) (Fin n) α) (u : Bool) (T : TriangularLinearOperator n α) :
    ((∃ r, CholLinearOperator.init (.bare M) u = .ok r) ↔ (is_tril M ∨ is_triu M)) ∧
    (¬ is_tril M → ¬ is_triu M →
      CholLinearOperator.init (.bare M) u =
        .error "chol must be either lower or upper triangular") ∧
    (is_tril M → CholLinearOperator.init (.bare M) u = .ok (⟨⟨M, false⟩, u⟩, true)) ∧
    (¬ is_tril M → is_triu M →
      CholLinearOperator.init (.bare M) u = .ok (⟨⟨M, true⟩, u⟩, true)) ∧
    CholLinearOperator.init (.typed T) u = .ok (⟨T, u⟩, false) := by
  by_cases h1 : is_tril M <;> by_cases h2 : is_triu M <;>
    simp [CholLinearOperator.init, h1, h2]

/-- Witness for C8 (amended) at a lower-but-not-upper-triangular array. -/
theorem chol_init_triangular_classification_witness :
    ((∃ r, CholLinearOperator.init (.bare !![(1:ℤ), 0; 2, 3]) false = .ok r) ↔
      (is_tril !![(1:ℤ), 0; 2, 3] ∨ is_triu !![(1:ℤ), 0; 2, 3])) ∧
    (¬ is_tril !![(1:ℤ), 0; 2, 3] → ¬ is_triu !![(1:ℤ), 0; 2, 3] →
      CholLinearOperator.init (.bare !![(1:ℤ), 0; 2, 3]) false =
        .error "chol must be either lower or upper triangular") ∧
    (is_tril !![(1:ℤ), 0; 2, 3] →
      CholLinearOperator.init (.bare !![(1:ℤ), 0; 2, 3]) false =
        .ok (⟨⟨!![(1:ℤ), 0; 2, 3], false⟩, false⟩, true)) ∧
    (¬ is_tril !![(1:ℤ), 0; 2, 3] → is_triu !![(1:ℤ), 0; 2, 3] →
      CholLinearOperator.init (.bare !![(1:ℤ), 0; 2, 3]) false =
        .ok (⟨⟨!![(1:ℤ), 0; 2, 3], true⟩, false⟩, true)) ∧
    CholLinearOperator.init (.typed ⟨!![(1:ℤ), 0; 2, 3], false⟩) false =
      .ok (⟨⟨!![(1:ℤ), 0; 2, 3], false⟩, false⟩, false) :=
  chol_init_triangular_classification !![(1:ℤ), 0; 2, 3] false ⟨!![(1:ℤ), 0; 2, 3], false⟩

/-- Claim C3: `inverse()` is a new Cholesky operator built from the inverse
of the stored factor with the orientation flag flipped (on both the wrapped
factor and the operator), it represents the inverse matrix
(`inverse().to_dense() * to_dense() = 1`), and inverting twice reproduces the
original dense form. -/
theorem chol_inverse_represents_inverse {n : ℕ} {α : Type} [Field α]
    (c : CholLinearOperator n α) (h : IsUnit c.root.mat.det) :
    c.inverse.root.mat = c.root.mat⁻¹ ∧
    c.inverse.root.upper = !c.upper ∧
    c.inverse.upper = !c.upper ∧
    c.inverse.to_dense * c.to_dense = 1 ∧
    c.inverse.inverse.to_dense = c.to_dense := by
  obtain ⟨⟨R, ru⟩, u⟩ := c
  simp only at h
  have hT : IsUnit Rᵀ.det := by rwa [Matrix.det_transpose]
  refine ⟨by simp [CholLinearOperator.inverse, TriangularLinearOperator.inverse, minv_eq_inv],
    rfl, rfl, ?_, ?_⟩
  · cases u
    · show CholLinearOperator.to_dense ⟨⟨minv R, true⟩, true⟩ *
        CholLinearOperator.to_dense ⟨⟨R, ru⟩, false⟩ = 1
      simp only [CholLinearOperator.to_dense, TriangularLinearOperator.transpose_nonbatch,
        minv_eq_inv, if_pos, if_neg, Bool.false_eq_true, ite_true, ite_false]
      rw [Matrix.mul_assoc, ← Matrix.mul_assoc R⁻¹ R Rᵀ,
        Matrix.nonsing_inv_mul R h, Matrix.one_mul,
        Matrix.transpose_nonsing_inv, Matrix.nonsing_inv_mul Rᵀ hT]
    · show CholLinearOperator.to_dense ⟨⟨minv R, false⟩, false⟩ *
        CholLinearOperator.to_dense ⟨⟨R, ru⟩, true⟩ = 1
      simp only [CholLinearOperator.to_dense, TriangularLinearOperator.transpose_nonbatch,
        minv_eq_inv, Bool.false_eq_true, ite_true, ite_false]
      rw [Matrix.transpose_nonsing_inv, Matrix.mul_assoc,
        ← Matrix.mul_assoc Rᵀ⁻¹ Rᵀ R, Matrix.nonsing_inv_mul Rᵀ hT,
        Matrix.one_mul, Matrix.nonsing_inv_mul R h]
  · have hh : minv (minv R) = R := by
      rw [minv_eq_inv, minv_eq_inv, Matrix.nonsing_inv_nonsing_inv R h]
    cases u <;>
      simp [CholLinearOperator.inverse, TriangularLinearOperator.inverse,
        CholLinearOperator.to_dense, TriangularLinearOperator.transpose_nonbatch, hh]

/-- Witness for C3 at the spec's scenario operator (factor [[2,0],[1,3]],
lower): its factor determinant 6 is a unit in the rationals. -/
theorem chol_inverse_represents_inverse_witness :
    IsUnit cQ.root.mat.det ∧
    (cQ.inverse.root.mat = cQ.root.mat⁻¹ ∧
     cQ.inverse.root.upper = !cQ.upper ∧
     cQ.inverse.upper = !cQ.upper ∧
     cQ.inverse.to_dense * cQ.to_dense = 1 ∧
     cQ.inverse.inverse.to_dense = cQ.to_dense) := by
  have h : IsUnit cQ.root.mat.det := by
    simp [cQ, Matrix.det_fin_two_of, isUnit_iff_ne_zero]
  exact ⟨h, chol_inverse_represents_inverse cQ h⟩

/-- Claim C4: `solve(b, left)` returns X with `to_dense() @ X = b`,
left-multiplied by the left tensor when one is given; a 1-D right-hand side
is solved as a single column and squeezed back, so the returned solution is a
1-D vector y with `to_dense() *ᵥ y = b`. -/
theorem chol_solve_correct {n m k : ℕ} {α : Type} [Field α]
    (c : CholLinearOperator n α) (right : Matrix (Fin n) (Fin m) α)
    (b : Fin n → α) (L : Matrix (Fin k) (Fin n) α) (h : IsUnit c.root.mat.det) :
    c.to_dense * c.root.cholesky_solve right c.upper = right ∧
    c.solve right (none : Option (Matrix (Fin k) (Fin n) α)) =
      Sum.inl (c.root.cholesky_solve right c.upper) ∧
    c.solve right (some L) = Sum.inr (L * c.root.cholesky_solve right c.upper) ∧
    c.solve_vec b (none : Option (Matrix (Fin k) (Fin n) α)) =
      Sum.inl (fun i => c.root.cholesky_solve (Matrix.of fun r (_ : Fin 1) => b r) c.upper i 0) ∧
    c.to_dense *ᵥ (fun i => c.root.cholesky_solve (Matrix.of fun r (_ : Fin 1) => b r) c.upper i 0) = b := by
  have key : ∀ (p : ℕ) (rhs : Matrix (Fin n) (Fin p) α),
      c.to_dense * c.root.cholesky_solve rhs c.upper = rhs := by
    intro p rhs
    obtain ⟨⟨R, ru⟩, u⟩ := c
    simp only at h
    have hT : IsUnit Rᵀ.det := by rwa [Matrix.det_transpose]
    cases u
    · have hA : IsUnit (R * Rᵀ).det := by
        rw [Matrix.det_mul, Matrix.det_transpose]; exact h.mul h
      show (R * Rᵀ) * (minv (R * Rᵀ) * rhs) = rhs
      rw [minv_eq_inv, ← Matrix.mul_assoc, Matrix.mul_nonsing_inv _ hA, Matrix.one_mul]
    · have hA : IsUnit (Rᵀ * R).det := by
        rw [Matrix.det_mul, Matrix.det_transpose]; exact h.mul h
      show (Rᵀ * R) * (minv (Rᵀ * R) * rhs) = rhs
      rw [minv_eq_inv, ← Matrix.mul_assoc, Matrix.mul_nonsing_inv _ hA, Matrix.one_mul]
  refine ⟨key m right, rfl, rfl, rfl, ?_⟩
  have hcol := key 1 (Matrix.of fun r (_ : Fin 1) => b r)
  funext i
  have := congrFun (congrFun hcol i) 0
  simpa [Matrix.mulVec, dotProduct, Matrix.mul_apply] using this

/-- Witness for C4 at the spec's scenario: A = [[4,2],[2,10]] with
right-hand sides [[4],[2]] (as a column) and [4,2] (as a vector), and left
tensor the identity. -/
theorem chol_solve_correct_witness :
    IsUnit cQ.root.mat.det ∧
    (cQ.to_dense * cQ.root.cholesky_solve !![(4:ℚ); 2] cQ.upper = !![(4:ℚ); 2] ∧
     cQ.solve !![(4:ℚ); 2] (none : Option (Matrix (Fin 2) (Fin 2) ℚ)) =
       Sum.inl (cQ.root.cholesky_solve !![(4:ℚ); 2] cQ.upper) ∧
     cQ.solve !![(4:ℚ); 2] (some (1 : Matrix (Fin 2) (Fin 2) ℚ)) =
       Sum.inr ((1 : Matrix (Fin 2) (Fin 2) ℚ) * cQ.root.cholesky_solve !![(4:ℚ); 2] cQ.upper) ∧
     cQ.solve_vec ![(4:ℚ), 2] (none : Option (Matrix (Fin 2) (Fin 2) ℚ)) =
       Sum.inl (fun i => cQ.root.cholesky_solve (Matrix.of fun r (_ : Fin 1) => ![(4:ℚ), 2] r) cQ.upper i 0) ∧
     cQ.to_dense *ᵥ (fun i => cQ.root.cholesky_solve (Matrix.of fun r (_ : Fin 1) => ![(4:ℚ), 2] r) cQ.upper i 0) = ![(4:ℚ), 2]) := by
  have h : IsUnit cQ.root.mat.det := by
    simp [cQ, Matrix.det_fin_two_of, isUnit_iff_ne_zero]
  exact ⟨h, chol_solve_correct cQ !![(4:ℚ); 2] ![(4:ℚ), 2] (1 : Matrix (Fin 2) (Fin 2) ℚ) h⟩

/-- Key algebraic step for inv_quad: the Gram matrix of the solved tensor Y
(with Y = R⁻¹T for lower orientation, Y = R⁻ᵀT for upper) equals
Tᵀ * to_dense()⁻¹ * T in both orientations. -/
theorem chol_inv_quad_gram {n m : ℕ} {α : Type} [Field α]
    (c : CholLinearOperator n α) (T : Matrix (Fin n) (Fin m) α) :
    (if c.upper then c.root.transpose_nonbatch.solve T else c.root.solve T)ᵀ *
      (if c.upper then c.root.transpose_nonbatch.solve T else c.root.solve T) =
    Tᵀ * c.to_dense⁻¹ * T := by
  obtain ⟨⟨R, ru⟩, u⟩ := c
  cases u
  · simp only [CholLinearOperator.to_dense, TriangularLinearOperator.transpose_nonbatch,
      TriangularLinearOperator.solve, minv_eq_inv, Bool.false_eq_true, ite_false]
    rw [Matrix.mul_inv_rev, Matrix.transpose_mul, ← Matrix.transpose_nonsing_inv]
    simp only [Matrix.mul_assoc]
  · simp only [CholLinearOperator.to_dense, TriangularLinearOperator.transpose_nonbatch,
      TriangularLinearOperator.solve, minv_eq_inv, ite_true]
    rw [Matrix.mul_inv_rev, Matrix.transpose_mul, Matrix.transpose_nonsing_inv,
      Matrix.transpose_transpose]
    simp only [Matrix.mul_assoc]

/-- Claim C5: for an invertible factor and a nonempty tensor T, `inv_quad(T)`
with the reduce flag set is the scalar `trace (Tᵀ * to_dense()⁻¹ * T)`, and
without the reduce flag it is the per-column vector of diagonal entries of
the same matrix (the sums of squares of the solved tensor). -/
theorem chol_inv_quad_eq_trace {n m : ℕ} {α : Type} [Field α]
    (c : CholLinearOperator n α) (T : Matrix (Fin n) (Fin m) α)
    (h : IsUnit c.root.mat.det) (hm : 0 < m) :
    c.inv_quad T true = .scalar (Matrix.trace (Tᵀ * c.to_dense⁻¹ * T)) ∧
    c.inv_quad T false = .vec (fun j => (Tᵀ * c.to_dense⁻¹ * T) j j) := by
  have hgram := chol_inv_quad_gram c T
  have hentry : ∀ j, (Tᵀ * c.to_dense⁻¹ * T) j j =
      ∑ i, ((if c.upper then c.root.transpose_nonbatch.solve T else c.root.solve T) i j) ^ 2 := by
    intro j
    rw [← hgram]
    simp [Matrix.mul_apply, Matrix.transpose_apply, sq]
  constructor
  · rw [CholLinearOperator.inv_quad, if_pos ⟨Nat.pos_iff_ne_zero.mp hm, rfl⟩]
    congr 1
    rw [Matrix.trace]
    simp only [Matrix.diag_apply, hentry]
  · rw [CholLinearOperator.inv_quad, if_neg (by simp)]
    congr 1
    funext j
    rw [hentry]

/-- Witness for C5 at the spec's scenario operator with the single-column
tensor [[1],[0]]. -/
theorem chol_inv_quad_eq_trace_witness :
    IsUnit cQ.root.mat.det ∧ 0 < 1 ∧
    (cQ.inv_quad !![(1:ℚ); 0] true =
      .scalar (Matrix.trace (!![(1:ℚ); 0]ᵀ * cQ.to_dense⁻¹ * !![(1:ℚ); 0])) ∧
     cQ.inv_quad !![(1:ℚ); 0] false =
      .vec (fun j => (!![(1:ℚ); 0]ᵀ * cQ.to_dense⁻¹ * !![(1:ℚ); 0]) j j)) := by
  have h : IsUnit cQ.root.mat.det := by
    simp [cQ, Matrix.det_fin_two_of, isUnit_iff_ne_zero]
  exact ⟨h, Nat.one_pos, chol_inv_quad_eq_trace cQ !![(1:ℚ); 0] h Nat.one_pos⟩

/-- Claim C2 (evaluation at the failing input): for the upper-oriented
operator with factor R = [[1,1],[0,1]] (A = RᵀR = [[1,1],[1,2]]),
`root_inv_decomposition` indeed ignores its method/initial/test arguments,
but the returned root operator represents R⁻ᵀR⁻¹ = [[1,-1],[-1,2]], which is
not A⁻¹ = [[2,-1],[-1,1]]: its dense form times A is not the identity. -/
theorem chol_root_inv_decomposition_wrong_for_upper :
    ∀ (method : Option String) (iv tv : Option (Matrix (Fin 2) (Fin 2) ℚ)),
      cQup.root_inv_decomposition method iv tv = cQup.root_inv_decomposition none none none ∧
      (cQup.root_inv_decomposition method iv tv).to_dense ≠ cQup.to_dense⁻¹ ∧
      (cQup.root_inv_decomposition method iv tv).to_dense * cQup.to_dense ≠ 1 := by
  intro method iv tv
  have hmat : minv !![(1:ℚ), 1; 0, 1] = !![1, -1; 0, 1] := by
    rw [minv, Matrix.adjugate_fin_two, Matrix.det_fin_two_of]
    ext i j
    fin_cases i <;> fin_cases j <;> simp
  have hroot : (cQup.root_inv_decomposition method iv tv).root = !![(1:ℚ), 0; -1, 1] := by
    show (minv !![(1:ℚ), 1; 0, 1])ᵀ = _
    rw [hmat]
    ext i j
    fin_cases i <;> fin_cases j <;> rfl
  have hdense : (cQup.root_inv_decomposition method iv tv).to_dense =
      !![(1:ℚ), -1; -1, 2] := by
    rw [RootLinearOperator.to_dense, hroot]
    have ht : (!![(1:ℚ), 0; -1, 1])ᵀ = !![1, -1; 0, 1] := by
      ext i j
      fin_cases i <;> fin_cases j <;> rfl
    rw [ht, Matrix.mul_fin_two]
    ext i j
    fin_cases i <;> fin_cases j <;> norm_num
  have hA : cQup.to_dense = !![(1:ℚ), 1; 1, 2] := by
    show (!![(1:ℚ), 1; 0, 1])ᵀ * !![(1:ℚ), 1; 0, 1] = _
    have ht : (!![(1:ℚ), 1; 0, 1])ᵀ = !![1, 0; 1, 1] := by
      ext i j
      fin_cases i <;> fin_cases j <;> rfl
    rw [ht, Matrix.mul_fin_two]
    ext i j
    fin_cases i <;> fin_cases j <;> norm_num
  have hAinv : cQup.to_dense⁻¹ = !![(2:ℚ), -1; -1, 1] := by
    rw [hA, Matrix.inv_def, Matrix.adjugate_fin_two, Matrix.det_fin_two_of,
      Ring.inverse_eq_inv]
    ext i j
    fin_cases i <;> fin_cases j <;> simp <;> norm_num
  refine ⟨rfl, ?_, ?_⟩
  · rw [hdense, hAinv]
    intro hcontra
    have h00 := congrFun (congrFun hcontra 0) 0
    norm_num at h00
  · rw [hdense, hA]
    intro hcontra
    have h00 := congrFun (congrFun hcontra 0) 0
    norm_num [Matrix.mul_apply, Fin.sum_univ_two, Matrix.one_apply] at h00

/-- Claim C6: on an operator whose factor is triangular (either orientation)
with strictly positive diagonal, the logdet term of
`inv_quad_logdet(logdet=True)` equals 2 * the sum of the logs of the
canonical factor's diagonal, and equals log det of the dense matrix. -/
theorem chol_logdet_eq_log_det {n : ℕ} (c : CholLinearOperator n ℝ)
    (htri : is_tril c.root.mat ∨ is_triu c.root.mat)
    (hpos : ∀ i, 0 < c.root.mat i i) :
    c.logdet_term = 2 * ∑ i, Real.log (c.chol_diag i) ∧
    c.logdet_term = Real.log c.to_dense.det ∧
    (c.inv_quad_logdet (none : Option (Matrix (Fin n) (Fin 1) ℝ)) true true).2 =
      some c.logdet_term := by
  have hdet : c.root.mat.det = ∏ i, c.root.mat i i := by
    rcases htri with h1 | h2
    · exact Matrix.det_of_lowerTriangular c.root.mat (fun i j hij => h1 i j hij)
    · exact Matrix.det_of_upperTriangular (fun i j hij => h2 i j hij)
  refine ⟨?_, ?_, ?_⟩
  · rw [CholLinearOperator.logdet_term, Finset.mul_sum]
    refine Finset.sum_congr rfl fun i _ => ?_
    rw [Real.log_pow]
    norm_num
  · have hA : c.to_dense.det = (∏ i, c.root.mat i i) * (∏ i, c.root.mat i i) := by
      cases hu : c.upper <;>
        simp only [CholLinearOperator.to_dense, hu,
          TriangularLinearOperator.transpose_nonbatch, Bool.false_eq_true,
          ite_false, ite_true] <;>
        rw [Matrix.det_mul, Matrix.det_transpose, hdet]
    rw [CholLinearOperator.logdet_term, hA, ← Finset.prod_mul_distrib,
      Real.log_prod _ _ (fun i _ => mul_ne_zero (ne_of_gt (hpos i)) (ne_of_gt (hpos i)))]
    exact Finset.sum_congr rfl fun i _ => by rw [pow_two]; rfl
  · simp [CholLinearOperator.inv_quad_logdet]

/-- Witness for C6 at the spec's scenario operator over the reals (factor
[[2,0],[1,3]], lower, positive diagonal). -/
theorem chol_logdet_eq_log_det_witness :
    (is_tril cR.root.mat ∨ is_triu cR.root.mat) ∧ (∀ i, 0 < cR.root.mat i i) ∧
    (cR.logdet_term = 2 * ∑ i, Real.log (cR.chol_diag i) ∧
     cR.logdet_term = Real.log cR.to_dense.det ∧
     (cR.inv_quad_logdet (none : Option (Matrix (Fin 2) (Fin 1) ℝ)) true true).2 =
       some cR.logdet_term) := by
  have h1 : is_tril cR.root.mat := by
    intro i j hij
    fin_cases i <;> fin_cases j <;>
      first
        | exact absurd hij (by decide)
        | norm_num [cR]
  have h2 : ∀ i, 0 < cR.root.mat i i := by
    intro i
    fin_cases i <;> norm_num [cR]
  exact ⟨Or.inl h1, h2, chol_logdet_eq_log_det cR (Or.inl h1) h2⟩

/-- Claim C7: the precondition checks of inv_quad_logdet succeed exactly when
the operator is square and the right-hand side (when supplied) is compatible
per the spec's rule; a non-square operator yields the structural error naming
the class and size; an incompatible right-hand side yields one of the two
shape errors carrying both shapes; and on success the returned pair holds
the quadratic term exactly when a right-hand side was supplied and the
logdet term exactly when requested. -/
theorem chol_inv_quad_logdet_checks (opS : List ℕ) (rS : Option (List ℕ))
    {n m : ℕ} (c : CholLinearOperator n ℝ) (T : Matrix (Fin n) (Fin m) ℝ)
    (ld rd : Bool) :
    (inv_quad_logdet_check opS rS = .ok () ↔
      is_square_shape opS = true ∧ specCompatible opS rS) ∧
    (inv_quad_logdet_check opS rS = .error (.notSquare "CholLinearOperator" opS) ↔
      is_square_shape opS = false) ∧
    (∀ r, rS = some r → is_square_shape opS = true → ¬ specCompatible opS rS →
      inv_quad_logdet_check opS rS = .error (.dimMismatch opS r) ∨
      inv_quad_logdet_check opS rS = .error (.shapeMismatch opS r)) ∧
    ((c.inv_quad_logdet (none : Option (Matrix (Fin n) (Fin m) ℝ)) ld rd).1 = none) ∧
    ((c.inv_quad_logdet (some T) ld rd).1 = some (c.inv_quad T rd)) ∧
    ((c.inv_quad_logdet (some T) false rd).2 = none) ∧
    ((c.inv_quad_logdet (some T) true rd).2 = some c.logdet_term) := by
  refine ⟨?_, ?_, ?_,
    by simp [CholLinearOperator.inv_quad_logdet],
    by simp [CholLinearOperator.inv_quad_logdet],
    by simp [CholLinearOperator.inv_quad_logdet],
    by simp [CholLinearOperator.inv_quad_logdet]⟩
  · rcases rS with _ | r
    · simp only [inv_quad_logdet_check, specCompatible]
      split_ifs with h <;> simp_all
    · simp only [inv_quad_logdet_check, specCompatible]
      split_ifs with h h1 h2 h3 h4 <;> simp_all <;> omega
  · rcases rS with _ | r
    · simp only [inv_quad_logdet_check]
      split_ifs with h <;> simp_all
    · simp only [inv_quad_logdet_check]
      split_ifs with h h1 h2 h3 h4 <;> simp_all
  · intro r hr hsq hcompat
    subst hr
    simp only [inv_quad_logdet_check, specCompatible, hsq] at *
    split_ifs with h h1 h2 h3 h4 <;> simp_all

/-- Witness for C7 at the unbatched 2x2 operator shape with a compatible 1-D
right-hand side of length 2, and at the scenario operator over the reals. -/
theorem chol_inv_quad_logdet_checks_witness :
    (inv_quad_logdet_check [2, 2] (some [2]) = .ok () ↔
      is_square_shape [2, 2] = true ∧ specCompatible [2, 2] (some [2])) ∧
    (inv_quad_logdet_check [2, 2] (some [2]) =
        .error (.notSquare "CholLinearOperator" [2, 2]) ↔
      is_square_shape [2, 2] = false) ∧
    (∀ r, some [2] = some r → is_square_shape [2, 2] = true →
      ¬ specCompatible [2, 2] (some [2]) →
      inv_quad_logdet_check [2, 2] (some [2]) = .error (.dimMismatch [2, 2] r) ∨
      inv_quad_logdet_check [2, 2] (some [2]) = .error (.shapeMismatch [2, 2] r)) ∧
    ((cR.inv_quad_logdet (none : Option (Matrix (Fin 2) (Fin 1) ℝ)) false true).1 = none) ∧
    ((cR.inv_quad_logdet (some !![(1:ℝ); 0]) false true).1 = some (cR.inv_quad !![(1:ℝ); 0] true)) ∧
    ((cR.inv_quad_logdet (some !![(1:ℝ); 0]) false true).2 = none) ∧
    ((cR.inv_quad_logdet (some !![(1:ℝ); 0]) true true).2 = some cR.logdet_term) :=
  chol_inv_quad_logdet_checks [2, 2] (some [2]) cR !![(1:ℝ); 0] false true
